import Mathlib

/-!
Verification of the notion-md-gen repository: a shallow embedding in Lean 4 of
the generator orchestrator (generator/generator.go), the incremental cache
(generator/cache.go) and the Markdown renderer (pkg/tomarkdown/tomarkdown.go),
together with theorems settling the specification's claims about them.

Modelling conventions:
* Go strings are modelled as `List Char` (`Str`).  All strings that reach the
  embedded code arrive from JSON decoding and are therefore valid UTF-8, so a
  list of Unicode scalar values is a faithful representation.
* `strings.ToLower` / `strings.EqualFold` are modelled with `Char.toLower`,
  which folds the ASCII range; the claims under verification do not depend on
  folding outside ASCII.
* Effectful code is modelled by explicit state passing (the file system is a
  list of existing paths, the cache file store maps paths to JSON values) and
  external collaborators (HTTP, the Notion client, YAML marshalling, Go
  templates) are oracle functions supplied as parameters.
* Fallible Go functions returning `error` are modelled with `Except Unit`.
-/

namespace NotionMdGen

/-- Go strings, as lists of Unicode scalar values. -/
abbrev Str := List Char

/-- Model of `strings.ToLower`, restricted to the ASCII fold of `Char.toLower`. -/
def toLowerStr (s : Str) : Str := s.map Char.toLower

/-- Model of `strings.Contains s sub`: `sub` occurs contiguously inside `s`. -/
def containsStr (s sub : Str) : Bool := decide (sub <:+: s)

/-- Model of `strings.EqualFold`, restricted to the ASCII fold. -/
def equalFold (a b : Str) : Bool := toLowerStr a = toLowerStr b

/-- Model of `strings.ToValidUTF8 s ""` replaces invalid UTF-8 byte runs by the empty
string.  Every `List Char` encodes valid UTF-8, so on the strings reaching
this code the function is the identity.  Note that it does NOT remove valid
non-ASCII characters. -/
def toValidUTF8 (s : Str) : Str := s

/-- Model of `strings.ReplaceAll s " " "-"`: the pattern is the single space character,
so this is a character-wise replacement. -/
def replaceSpaces (s : Str) : Str := s.map (fun c => if c = ' ' then '-' else c)

/-- Model of `filepath.Join base rel` for a non-empty clean base and a clean relative
component. -/
def pjoin (base rel : Str) : Str := base ++ ('/' :: rel)

/-- Decimal digits of `n`, left-padded with zeros to width `w`
(models Go's zero-padded `time` format verbs). -/
def padNum (w : Nat) (n : Nat) : Str :=
  let ds := Nat.toDigits 10 n
  List.replicate (w - ds.length) '0' ++ ds

/-- Model of `time.Time`, reduced to the observations the embedded code makes of it:
the absolute instant (nanoseconds, UTC) used for ordering and for the
RFC3339Nano cache stamp, and the calendar fields used by `Format`. -/
structure GoTime where
  instant : Int
  year : Nat
  month : Nat
  day : Nat
  hour : Nat
  minute : Nat
  second : Nat
deriving DecidableEq, Repr

/-- Model of `t.After u`: strict comparison of instants. -/
def GoTime.after (t u : GoTime) : Bool := u.instant < t.instant

/-- Model of `t.Format "2006-01-02"`: the `YYYY-MM-DD` rendering of the date. -/
def formatDate (t : GoTime) : Str :=
  padNum 4 t.year ++ ('-' :: padNum 2 t.month) ++ ('-' :: padNum 2 t.day)

/-! ## Rich text (pkg/tomarkdown/tomarkdown.go, ConvertRich / emphFormat) -/

/-- Model of `notion.Annotations` (the flags read by `emphFormat`; `color` is ignored
by the source). -/
structure Annotations where
  bold : Bool
  italic : Bool
  strikethrough : Bool
  underline : Bool
  code : Bool
deriving DecidableEq, Repr

/-- Model of `notion.RichTextType`. -/
inductive RichTextType where
  | text
  | equation
  | mention
deriving DecidableEq, Repr

/-- Model of `notion.Text`: content plus optional hyperlink (`Link.URL`). -/
structure RichTextText where
  content : Str
  link : Option Str
deriving DecidableEq, Repr

/-- Model of `notion.RichText`.  The `text` payload is only meaningful when
`type = text` (in Go it is a possibly-nil pointer); `annotations` is a
possibly-nil pointer, hence an `Option`. -/
structure RichText where
  type : RichTextType
  text : RichTextText
  annotations : Option Annotations
deriving DecidableEq, Repr

/-- A Go format string of the shape `<pre>%s<post>`, represented by the pair
of its prefix and suffix; `fmt.Sprintf` on it is `wrapFmt`. -/
def wrapFmt (f : Str × Str) (x : Str) : Str := f.1 ++ x ++ f.2

/-- Model of `emphFormat`: generates the markdown emphasis format string from the
annotations (tomarkdown.go lines 421-445). -/
def emphFormat (a : Option Annotations) : Str × Str :=
  match a with
  | none => ([], [])
  | some a =>
    if a.code then ('`' :: [], '`' :: [])
    else
      let s : Str × Str :=
        if a.bold && a.italic then ("***".toList, "***".toList)
        else if a.bold then ("**".toList, "**".toList)
        else if a.italic then ("*".toList, "*".toList)
        else ([], [])
      if a.underline then ("__".toList ++ s.1, s.2 ++ "__".toList)
      else if a.strikethrough then ("~~".toList ++ s.1, s.2 ++ "~~".toList)
      else s

/-- Model of `ConvertRich`: renders a single RichText span as Markdown
(tomarkdown.go lines 404-419). -/
def ConvertRich (t : RichText) : Str :=
  match t.type with
  | .text =>
    match t.text.link with
    | some url =>
      wrapFmt (emphFormat t.annotations)
        ("[".toList ++ t.text.content ++ "](".toList ++ url ++ ")".toList)
    | none => wrapFmt (emphFormat t.annotations) t.text.content
  | .equation => []
  | .mention => []

/-- Model of `ConvertRichText`: concatenates the renderings of the spans. -/
def ConvertRichText (ts : List RichText) : Str :=
  (ts.map ConvertRich).flatten

/-- Rendering of a plain-text span exactly as claim C6 words it: form the
plain content or its `[content](url)` link form, then `code` wraps only in
single back-ticks ignoring every other flag; otherwise bold+italic, bold,
italic wrapping, then underline else strikethrough wrapping. -/
def specRenderRich (t : RichText) : Str :=
  let base :=
    match t.text.link with
    | some url => "[".toList ++ t.text.content ++ "](".toList ++ url ++ ")".toList
    | none => t.text.content
  match t.annotations with
  | none => base
  | some a =>
    if a.code then '`' :: base ++ ('`' :: [])
    else
      let e :=
        if a.bold && a.italic then "***".toList ++ base ++ "***".toList
        else if a.bold then "**".toList ++ base ++ "**".toList
        else if a.italic then "*".toList ++ base ++ "*".toList
        else base
      if a.underline then "__".toList ++ e ++ "__".toList
      else if a.strikethrough then "~~".toList ++ e ++ "~~".toList
      else e

/-- C6: for every plain-text RichText span, `ConvertRich` renders exactly the
annotation-precedence form the spec describes: `code` wraps the (possibly
linked) content only in single back-ticks, otherwise bold/italic combinations
wrap in `***x***`/`**x**`/`*x*` and the result is wrapped in `__x__` if
underline else `~~x~~` if strikethrough. -/
theorem convertRich_spec (t : RichText) (h : t.type = .text) :
    ConvertRich t = specRenderRich t := by
  rcases t with ⟨ty, ⟨content, link⟩, ann⟩
  cases h
  rcases ann with _ | ⟨b, i, s, u, c⟩
  · cases link <;> simp [ConvertRich, specRenderRich, emphFormat, wrapFmt]
  · cases link <;>
      cases b <;> cases i <;> cases s <;> cases u <;> cases c <;>
      simp [ConvertRich, specRenderRich, emphFormat, wrapFmt]

/-- Witness for C6 at a concrete span: bold+underline+code with a hyperlink
renders through the claimed precedence (back-ticks win). -/
theorem convertRich_spec_witness :
    ConvertRich
        ⟨.text, ⟨"hi".toList, some "u".toList⟩,
          some ⟨true, false, false, true, true⟩⟩ =
      specRenderRich
        ⟨.text, ⟨"hi".toList, some "u".toList⟩,
          some ⟨true, false, false, true, true⟩⟩ :=
  convertRich_spec _ rfl

/-! ## Pages and properties (go-notion data model, as observed by the code) -/

/-- Model of `notion.FileType` tags (`"external"`, `"file"`; `other` stands for any
further tag, for which `downloadImage` falls through both branches). -/
inductive GoFileType where
  | external
  | file
  | other
deriving DecidableEq, Repr

/-- Model of `notion.FileBlock` (also standing in for `notion.Cover`, whose `Type`,
`File` and `External` fields are copied verbatim into a `FileBlock` by
`injectFrontMatterCover`). -/
structure FileBlock where
  fileType : GoFileType
  externalURL : Str
  fileURL : Str
deriving DecidableEq, Repr

/-- The result of `notion.DatabasePageProperty.Value()`, dispatched on the
property type; `Option` models possibly-nil pointers and `none`-valued date
fields model Go zero times (`IsZero`). `numVal` carries an `Int` stand-in for
`*float64`: no claim observes numeric arithmetic. -/
inductive PropValue where
  | selectOpt (name : Option Str)
  | multiSelect (names : List Str)
  | richText (spans : List RichText)
  | timeVal (t : Option GoTime)
  | dateVal (d : Option (Option GoTime × Option GoTime))
  | user (name : Option Str)
  | strVal (s : Option Str)
  | numVal (n : Option Int)
  | unsupported
deriving DecidableEq, Repr

/-- Model of `notion.DatabasePageProperty`, reduced to the fields the code reads:
its type tag, its `Title` rich text (read when `type` is the title tag) and
its dispatched `Value()`. -/
structure DBProperty where
  type : Str
  title : List RichText
  value : PropValue
deriving DecidableEq, Repr

/-- Model of `notion.DBPropTypeTitle`. -/
def titleType : Str := "title".toList

/-- Model of `notion.Page`, reduced to the fields the code reads.  `properties` is
`none` when the page's properties are not `DatabasePageProperties` (the
type assertion in `getPageTitle` fails). -/
structure Page where
  id : Str
  createdTime : GoTime
  lastEditedTime : GoTime
  properties : Option (List (Str × DBProperty))
  cover : Option FileBlock
deriving DecidableEq, Repr

/-- Model of `getPageTitle` (generator.go lines 226-247): first a property named
"title"/"name" (case-insensitively) of title type, then any title-type
property with a non-empty rendering, else the empty string. -/
def getPageTitle (page : Page) : Str :=
  match page.properties with
  | none => []
  | some props =>
    match props.find? (fun kv =>
        kv.2.type == titleType &&
          (equalFold kv.1 "title".toList || equalFold kv.1 "name".toList)) with
    | some kv => ConvertRichText kv.2.title
    | none =>
      match props.find? (fun kv =>
          kv.2.type == titleType && !kv.2.title.isEmpty &&
            !(ConvertRichText kv.2.title).isEmpty) with
      | some kv => ConvertRichText kv.2.title
      | none => []

/-! ## The filter stage (generator.go Run, lines 271-312) -/

/-- The body of the filtering loop, as the conjunction of its early-exit
guards: the `--since` guard, then the keyword guard (which first requires a
non-empty title). -/
def pageKeep (filterArgs : List Str) (since : Option GoTime) (page : Page) : Bool :=
  (match since with
   | none => true
   | some s => page.lastEditedTime.after s) &&
  (if filterArgs.isEmpty then true
   else
     let pageTitle := getPageTitle page
     if pageTitle.isEmpty then false
     else filterArgs.all fun arg =>
       containsStr (toLowerStr pageTitle) (toLowerStr arg))

/-- The filter stage: when a keyword or `--since` filter is active, keep the
pages passing the loop's guards, otherwise process all pages. -/
def filterPages (filterArgs : List Str) (since : Option GoTime)
    (pages : List Page) : List Page :=
  if filterArgs.isEmpty && since.isNone then pages
  else pages.filter (pageKeep filterArgs since)

/-- The claim's predicate, transcribed from its words: keep iff (no since
cutoff OR last-edited strictly after it) AND (no keyword filters OR the title
contains every keyword case-insensitively); a page lacking a title is never
matched by keyword filtering. -/
def specKeep (filterArgs : List Str) (since : Option GoTime) (page : Page) : Bool :=
  (since.isNone || since.any page.lastEditedTime.after) &&
  (filterArgs.isEmpty ||
    (!(getPageTitle page).isEmpty &&
      filterArgs.all fun kw =>
        containsStr (toLowerStr (getPageTitle page)) (toLowerStr kw)))

/-- The loop guard coincides with the claim's predicate. -/
theorem pageKeep_eq_specKeep (filterArgs : List Str) (since : Option GoTime)
    (page : Page) : pageKeep filterArgs since page = specKeep filterArgs since page := by
  cases since <;>
    cases h : filterArgs.isEmpty <;>
      cases ht : (getPageTitle page).isEmpty <;>
        simp [pageKeep, specKeep, h, ht]

/-- C8: the filter stage keeps exactly the pages satisfying the claim's
predicate: (no since cutoff OR strictly after it) AND (no keywords OR all
keywords occur case-insensitively in the title), titleless pages never
matching a keyword filter. -/
theorem filterPages_spec (filterArgs : List Str) (since : Option GoTime)
    (pages : List Page) :
    filterPages filterArgs since pages = pages.filter (specKeep filterArgs since) := by
  cases hc : (filterArgs.isEmpty && since.isNone)
  · unfold filterPages
    rw [if_neg (by simp [hc])]
    exact List.filter_congr fun p _ => pageKeep_eq_specKeep filterArgs since p
  · simp only [Bool.and_eq_true, List.isEmpty_iff, Option.isNone_iff_eq_none] at hc
    obtain ⟨h1, h2⟩ := hc
    subst h1 h2
    unfold filterPages
    rw [if_pos (by simp)]
    refine (List.filter_eq_self.mpr ?_).symm
    intro p _
    simp [specKeep]

/-! ## Output filenames (generator.go, generateArticleFilename, lines 516-531) -/

/-- Model of `generator.Markdown` configuration (the fields the embedded code reads). -/
structure Markdown where
  postSavePath : Str
  groupByMonth : Bool
  imageSavePath : Str
  imagePublicLink : Str
  shortcodeSyntax : Str
deriving DecidableEq, Repr

/-- Model of `generateArticleFilename`: lower-case the title, drop invalid UTF-8 byte
runs (`strings.ToValidUTF8`), replace spaces by hyphens, append `.md`,
and prefix a `YYYY-MM-DD` directory segment when grouping is enabled. -/
def generateArticleFilename (title : Str) (date : GoTime) (config : Markdown) : Str :=
  let escapedTitle := replaceSpaces (toValidUTF8 (toLowerStr title))
  let escapedFilename := escapedTitle ++ ".md".toList
  if config.groupByMonth then pjoin (formatDate date) escapedFilename
  else escapedFilename

/-- The filename exactly as claim C5 words it: the title lower-cased, with
non-ASCII characters stripped, spaces replaced by hyphens, `.md` appended,
optionally under a `YYYY-MM-DD` directory. -/
def claimFilename (title : Str) (date : GoTime) (config : Markdown) : Str :=
  let base := replaceSpaces ((toLowerStr title).filter (fun c => c.toNat < 128))
    ++ ".md".toList
  if config.groupByMonth then formatDate date ++ ('/' :: base) else base

/-- A concrete creation date used by the filename counterexample. -/
def marchDate : GoTime := ⟨1709596800000000000, 2024, 3, 5, 0, 0, 0⟩

/-- A concrete non-grouping Markdown configuration. -/
def plainMd : Markdown := ⟨"posts".toList, false, "images".toList, "/images".toList, []⟩

/-- Counterexample to C5 as stated: for the title `"café"`, the code keeps
the (valid UTF-8) non-ASCII character and produces `café.md`, while the
claim's non-ASCII-stripping formula produces `caf.md`. -/
theorem generateArticleFilename_nonascii_cex :
    generateArticleFilename "café".toList marchDate plainMd = "café.md".toList ∧
    claimFilename "café".toList marchDate plainMd = "caf.md".toList ∧
    generateArticleFilename "café".toList marchDate plainMd ≠
      claimFilename "café".toList marchDate plainMd := by
  refine ⟨by decide, by decide, by decide⟩

/-- The filename as amended: lower-cased title with spaces replaced by
hyphens and `.md` appended — non-ASCII characters are preserved, only
invalid UTF-8 byte runs are removed (a no-op on the valid titles arriving
from the API) — optionally under a `YYYY-MM-DD` directory segment. -/
def amendedFilename (title : Str) (date : GoTime) (config : Markdown) : Str :=
  let base := replaceSpaces (toLowerStr title) ++ ".md".toList
  if config.groupByMonth then formatDate date ++ ('/' :: base) else base

/-- C5 (amended): the output filename is the lower-cased title with spaces
replaced by hyphens plus `.md` (non-ASCII characters preserved), prefixed by
the `YYYY-MM-DD` creation-date directory exactly when month-grouping is
enabled; in particular "Hello World!" yields `hello-world!.md`, and
`2024-03-05/hello-world!.md` under grouping. -/
theorem generateArticleFilename_amended :
    (∀ (title : Str) (date : GoTime) (config : Markdown),
      generateArticleFilename title date config = amendedFilename title date config) ∧
    generateArticleFilename "Hello World!".toList marchDate plainMd
      = "hello-world!.md".toList ∧
    generateArticleFilename "Hello World!".toList marchDate
        { plainMd with groupByMonth := true }
      = "2024-03-05/hello-world!.md".toList := by
  refine ⟨fun title date config => ?_, by decide, by decide⟩
  simp [generateArticleFilename, amendedFilename, toValidUTF8, pjoin]

/-! ## The incremental cache (generator/cache.go) -/

/-- Model of `cacheEntry`. -/
structure cacheEntry where
  lastEdited : Str
  outputPath : Str
deriving DecidableEq, Repr

/-- Model of `runCache`; the Go map is represented as an association list (`none`
maps are replaced by the empty map on both load paths). -/
structure runCache where
  pages : List (Str × cacheEntry)
deriving DecidableEq, Repr

/-- Model of `defaultCache`. -/
def defaultCache : runCache := ⟨[]⟩

/-- The JSON values occurring in the cache file. -/
inductive Json where
  | str (s : Str)
  | obj (fields : List (Str × Json))

/-- Object field lookup; Go's `encoding/json` keeps the last binding of a
duplicated key, hence the reversed search. -/
def jsonLookup (fields : List (Str × Json)) (k : Str) : Option Json :=
  (fields.reverse.find? (fun f => f.1 == k)).map (fun f => f.2)

/-- Model of `json.MarshalIndent` of a `cacheEntry` (field layout of the struct tags
`last_edited`, `output_path`), as a JSON value. -/
def marshalCacheEntry (e : cacheEntry) : Json :=
  .obj [("last_edited".toList, .str e.lastEdited),
        ("output_path".toList, .str e.outputPath)]

/-- Model of `json.MarshalIndent` of a `runCache` (struct tag `pages`), as a JSON
value; byte-level indentation is external to the model. -/
def marshalCache (c : runCache) : Json :=
  .obj [("pages".toList, .obj (c.pages.map fun p => (p.1, marshalCacheEntry p.2)))]

/-- Model of `json.Unmarshal` into a string struct field: a missing field keeps the
zero value, a non-string value is a decoding error. -/
def unmarshalStrField (fields : List (Str × Json)) (k : Str) : Option Str :=
  match jsonLookup fields k with
  | none => some []
  | some (.str s) => some s
  | some _ => none

/-- Model of `json.Unmarshal` into a `cacheEntry`. -/
def unmarshalCacheEntry : Json → Option cacheEntry
  | .obj fields =>
    match unmarshalStrField fields "last_edited".toList,
          unmarshalStrField fields "output_path".toList with
    | some a, some b => some ⟨a, b⟩
    | _, _ => none
  | _ => none

/-- Model of `json.Unmarshal` of the `pages` map entries. -/
def unmarshalPages : List (Str × Json) → Option (List (Str × cacheEntry))
  | [] => some []
  | (k, v) :: rest =>
    match unmarshalCacheEntry v, unmarshalPages rest with
    | some e, some es => some ((k, e) :: es)
    | _, _ => none

/-- Model of `json.Unmarshal` into a `runCache`; a missing or null `pages` key yields
a `nil` map, which `loadCache` replaces by the empty one. -/
def unmarshalCache : Json → Option runCache
  | .obj fields =>
    match jsonLookup fields "pages".toList with
    | none => some defaultCache
    | some (.obj entries) => (unmarshalPages entries).map (fun es => ⟨es⟩)
    | some _ => none
  | _ => none

/-- The file store holding the serialized cache, path to JSON value. -/
abbrev FileStore := List (Str × Json)

/-- Read a path from the store (`os.ReadFile`; `none` is `IsNotExist`). -/
def storeRead (store : FileStore) (path : Str) : Option Json :=
  (store.find? (fun f => f.1 == path)).map (fun f => f.2)

/-- Write a path into the store (`os.WriteFile`, overwriting). -/
def storeWrite (store : FileStore) (path : Str) (j : Json) : FileStore :=
  store.filter (fun f => !(f.1 == path)) ++ [(path, j)]

/-- Model of `loadCache` (cache.go lines 25-45): empty path or missing file yield the
default cache; an unparsable existing file is a fatal error. -/
def loadCache (path : Str) (store : FileStore) : Except Unit runCache :=
  if path.isEmpty then .ok defaultCache
  else
    match storeRead store path with
    | none => .ok defaultCache
    | some content =>
      match unmarshalCache content with
      | some cache => .ok cache
      | none => .error ()

/-- Model of `saveCache` (cache.go lines 47-62): no-op on the empty path, otherwise
write the serialized cache (parent-directory creation is internal to the
store model; marshalling of this shape cannot fail). -/
def saveCache (path : Str) (cache : runCache) (store : FileStore) : FileStore :=
  if path.isEmpty then store
  else storeWrite store path (marshalCache cache)

/-- Model of `cacheTimestamp`: the canonical (injective) rendering of the UTC instant,
standing for `t.UTC().Format(time.RFC3339Nano)`. -/
def cacheTimestamp (t : GoTime) : Str := (toString t.instant).toList

/-- Decoding a marshalled entry restores it exactly. -/
theorem unmarshal_marshal_entry (e : cacheEntry) :
    unmarshalCacheEntry (marshalCacheEntry e) = some e := by
  simp [unmarshalCacheEntry, marshalCacheEntry, unmarshalStrField, jsonLookup]

/-- Decoding the marshalled page list restores it exactly. -/
theorem unmarshal_marshal_pages (ps : List (Str × cacheEntry)) :
    unmarshalPages (ps.map fun p => (p.1, marshalCacheEntry p.2)) = some ps := by
  induction ps with
  | nil => simp [unmarshalPages]
  | cons p rest ih => simp [unmarshalPages, unmarshal_marshal_entry, ih]

/-- C9: for every cache and non-empty path, saving to the store and loading
back succeeds and returns a cache with byte-identical `last_edited` and
`output_path` values for every page ID. -/
theorem cache_roundtrip (path : Str) (cache : runCache) (store : FileStore)
    (h : path ≠ []) :
    loadCache path (saveCache path cache store) = .ok cache := by
  have hpe : path.isEmpty = false := by
    cases path with
    | nil => exact absurd rfl h
    | cons c cs => rfl
  have hread : storeRead (storeWrite store path (marshalCache cache)) path
      = some (marshalCache cache) := by
    unfold storeRead storeWrite
    rw [List.find?_append]
    have hnone : (store.filter (fun f => !(f.1 == path))).find?
        (fun f => f.1 == path) = none := by
      rw [List.find?_eq_none]
      intro f hf
      have := List.of_mem_filter hf
      simpa using this
    simp [hnone]
  unfold loadCache saveCache
  rw [if_neg (by simp [hpe]), if_neg (by simp [hpe]), hread]
  simp [unmarshalCache, marshalCache, jsonLookup, unmarshal_marshal_pages]

/-- Witness for C9 at a concrete two-entry cache and path. -/
theorem cache_roundtrip_witness :
    loadCache "c.json".toList
        (saveCache "c.json".toList
          ⟨[("A".toList, ⟨"t1".toList, "a.md".toList⟩),
            ("B".toList, ⟨"t2".toList, "b.md".toList⟩)]⟩ []) =
      .ok ⟨[("A".toList, ⟨"t1".toList, "a.md".toList⟩),
            ("B".toList, ⟨"t2".toList, "b.md".toList⟩)]⟩ :=
  cache_roundtrip _ _ _ (by decide)

/-! ## The cache check (generator.go Run, lines 328-349) -/

/-- Go map lookup `cache.Pages[page.ID]`. -/
def cacheLookup (cache : runCache) (id : Str) : Option cacheEntry :=
  (cache.pages.find? (fun p => p.1 == id)).map (fun p => p.2)

/-- The cache-check loop's skip decision for one page: `skipAsUnchanged`
(incremental mode, entry found, stored stamp equal to the fresh one) and then
the `os.Stat` probe of the NEWLY computed absolute output path, `fs` being
the set of existing files. -/
def cacheSkip (incremental : Bool) (cache : runCache) (md : Markdown)
    (fs : List Str) (page : Page) : Bool :=
  let title0 := getPageTitle page
  let title := if title0.isEmpty then page.id else title0
  let outputRelPath := generateArticleFilename title page.createdTime md
  let outputAbsPath := pjoin md.postSavePath outputRelPath
  let pageEditedAt := cacheTimestamp page.lastEditedTime
  let skipAsUnchanged := incremental &&
    (match cacheLookup cache page.id with
     | some entry => entry.lastEdited == pageEditedAt
     | none => false)
  skipAsUnchanged && fs.contains outputAbsPath

/-- The cache-check loop over the filtered pages: the pages kept for
rendering and the `unchangedSkipped` counter. -/
def cacheCheckFilter (incremental : Bool) (cache : runCache) (md : Markdown)
    (fs : List Str) (pages : List Page) : List Page × Nat :=
  (pages.filter (fun p => !cacheSkip incremental cache md fs p),
   pages.countP (fun p => cacheSkip incremental cache md fs p))

/-- The skip condition exactly as claim C3 words it: incremental mode on, a
cache entry exists, its stamp equals the fresh one, AND the output file
previously recorded in the entry still exists on disk. -/
def claimSkip (incremental : Bool) (cache : runCache) (md : Markdown)
    (fs : List Str) (page : Page) : Bool :=
  incremental &&
  (match cacheLookup cache page.id with
   | none => false
   | some entry =>
     (entry.lastEdited == cacheTimestamp page.lastEditedTime) &&
     fs.contains (pjoin md.postSavePath entry.outputPath))

/-- The skip condition as amended: condition (d) probes the file at the
newly computed output path, not the path recorded in the entry. -/
def specSkipAmended (incremental : Bool) (cache : runCache) (md : Markdown)
    (fs : List Str) (page : Page) : Bool :=
  incremental &&
  (match cacheLookup cache page.id with
   | none => false
   | some entry => entry.lastEdited == cacheTimestamp page.lastEditedTime) &&
  fs.contains (pjoin md.postSavePath
    (generateArticleFilename
      (if (getPageTitle page).isEmpty then page.id else getPageTitle page)
      page.createdTime md))

/-- A concrete page whose title property renders to "new". -/
def cexPage : Page :=
  ⟨"p1".toList, marchDate, ⟨7, 2024, 3, 6, 0, 0, 0⟩,
   some [("Title".toList,
     ⟨titleType, [⟨.text, ⟨"new".toList, none⟩, none⟩],
      .richText [⟨.text, ⟨"new".toList, none⟩, none⟩]⟩)],
   none⟩

/-- A cache remembering a stale output path `old.md` for `cexPage`, with a
matching timestamp. -/
def cexCache : runCache :=
  ⟨[("p1".toList, ⟨"7".toList, "old.md".toList⟩)]⟩

/-- A file system holding the freshly computed output but not the recorded
one. -/
def cexFs : List Str := ["posts/new.md".toList]

/-- Counterexample to C3 as stated: the entry's recorded file `old.md` is
gone, so the claim's condition (d) fails and demands re-rendering, yet the
code skips the page because the freshly computed path `posts/new.md` exists. -/
theorem cacheSkip_fresh_path_cex :
    cacheSkip true cexCache plainMd cexFs cexPage = true ∧
    claimSkip true cexCache plainMd cexFs cexPage = false ∧
    (cacheCheckFilter true cexCache plainMd cexFs [cexPage]).1 = [] ∧
    (cacheCheckFilter true cexCache plainMd cexFs [cexPage]).2 = 1 := by
  refine ⟨by decide, by decide, by decide, by decide⟩

/-- C3 (amended): a page is excluded from rendering iff incremental mode is
on, a cache entry for its ID exists, the stored stamp string equals the
freshly computed one, AND the file at the NEWLY computed output path exists
on disk; the skipped counter counts exactly those pages. -/
theorem cacheCheckFilter_amended (incremental : Bool) (cache : runCache)
    (md : Markdown) (fs : List Str) (pages : List Page) :
    (cacheCheckFilter incremental cache md fs pages).1
        = pages.filter (fun p => !specSkipAmended incremental cache md fs p) ∧
    (cacheCheckFilter incremental cache md fs pages).2
        = pages.countP (specSkipAmended incremental cache md fs) ∧
    ∀ p, cacheSkip incremental cache md fs p
        = specSkipAmended incremental cache md fs p := by
  have hpt : ∀ p, cacheSkip incremental cache md fs p
      = specSkipAmended incremental cache md fs p := by
    intro p
    unfold cacheSkip specSkipAmended
    cases cacheLookup cache p.id <;> simp [Bool.and_assoc]
  refine ⟨List.filter_congr fun p _ => by rw [hpt], ?_, hpt⟩
  unfold cacheCheckFilter
  exact List.countP_congr fun p _ => by rw [hpt]

/-! ## Front matter (pkg/tomarkdown/tomarkdown.go) -/

/-- A front-matter value (a dynamically typed value in the source). -/
inductive FMValue where
  | str (s : Str)
  | strs (ss : List Str)
  | num (n : Int)
deriving DecidableEq, Repr

/-- Model of `tm.FrontMatter`: the Go string-keyed map of the source, as an association
list with map-assignment semantics (`fmSet`). -/
abbrev FrontMatter := List (Str × FMValue)

/-- Go map assignment `fm[k] = v`: overwrite an existing binding, else add. -/
def fmSet (fm : FrontMatter) (k : Str) (v : FMValue) : FrontMatter :=
  if fm.any (fun kv => kv.1 == k) then
    fm.map (fun kv => if kv.1 == k then (k, v) else kv)
  else fm ++ [(k, v)]

/-- Front-matter lookup (used only by theorems). -/
def fmGet (fm : FrontMatter) (k : Str) : Option FMValue :=
  (fm.find? (fun kv => kv.1 == k)).map (fun kv => kv.2)

/-- Model of `prop.Format("2006-01-02T15:04:05+07:00")`: in this Go layout the
trailing `+07:00` is literal text (only `-`-led zone verbs are recognized),
so every rendering carries that literal suffix. -/
def formatISO (t : GoTime) : Str :=
  formatDate t ++ ('T' :: padNum 2 t.hour) ++ (':' :: padNum 2 t.minute)
    ++ (':' :: padNum 2 t.second) ++ "+07:00".toList

/-- Model of `injectFrontMatter` (tomarkdown.go lines 326-372): type-directed
extraction of one property into the front-matter map; unsupported or nil
values are silently omitted. -/
def injectFrontMatter (fm : FrontMatter) (key : Str) (property : DBProperty) :
    FrontMatter :=
  let fmv : Option FMValue :=
    match property.value with
    | .selectOpt none => none
    | .selectOpt (some n) => some (.str n)
    | .multiSelect names => some (.strs names)
    | .richText spans => some (.str (ConvertRichText spans))
    | .timeVal none => none
    | .timeVal (some t) => some (.str (formatISO t))
    | .dateVal none => none
    | .dateVal (some d) =>
      match d.1 with
      | some start => some (.str (formatISO start))
      | none =>
        match d.2 with
        | some finish => some (.str (formatISO finish))
        | none => none
    | .user none => none
    | .user (some n) => some (.str n)
    | .strVal none => none
    | .strVal (some s) => some (.str s)
    | .numVal none => none
    | .numVal (some n) => some (.num n)
    | .unsupported => none
  match fmv with
  | some v => fmSet fm key v
  | none => fm

/-- Model of `GenFrontMatter` (tomarkdown.go lines 124-144), returning the text it
writes: nothing for an empty map; keys lower-cased, then YAML-marshalled by
the external `yaml.Marshal` oracle; on a marshal error it returns success
having written nothing; otherwise the `---`-delimited block. -/
def GenFrontMatter (fm : FrontMatter)
    (yamlMarshal : FrontMatter → Except Unit Str) : Except Unit Str :=
  if fm.isEmpty then .ok []
  else
    let nfm := fm.map (fun kv => (toLowerStr kv.1, kv.2))
    match yamlMarshal nfm with
    | .error _ => .ok []
    | .ok y => .ok ("---\n".toList ++ y ++ "---\n\n".toList)

/-- C10: a YAML marshal failure is silently swallowed — `GenFrontMatter`
returns success and emits no front-matter block — and an empty front-matter
map emits no `---` delimiters either. -/
theorem genFrontMatter_failure_silent (fm : FrontMatter)
    (yamlMarshal : FrontMatter → Except Unit Str)
    (h : yamlMarshal (fm.map (fun kv => (toLowerStr kv.1, kv.2))) = .error ()) :
    GenFrontMatter fm yamlMarshal = .ok [] ∧
    GenFrontMatter [] yamlMarshal = .ok [] := by
  constructor
  · unfold GenFrontMatter
    cases hfm : fm.isEmpty <;> simp [h]
  · rfl

/-- Witness for C10: a one-entry map with an always-failing marshaller. -/
theorem genFrontMatter_failure_silent_witness :
    GenFrontMatter [("A".toList, .str "v".toList)] (fun _ => .error ()) = .ok [] ∧
    GenFrontMatter [] (fun _ => .error ()) = .ok [] :=
  genFrontMatter_failure_silent [("A".toList, .str "v".toList)]
    (fun _ => .error ()) rfl

/-! ## Asset pipeline and block renderer (pkg/tomarkdown/tomarkdown.go) -/

/-- External collaborators of the renderer: `download` is the composite of
`http.Get` and `saveTo` (source URL to new local visit path, failing on
network or filesystem errors), `ogFetch` the opengraph link-preview fetcher
(title, description), `hasTemplate` whether `templates/<type>.gohtml` exists
in the embedded template FS. -/
structure MdEnv where
  download : Str → Except Unit Str
  ogFetch : Str → Except Unit (Str × Str)
  hasTemplate : Str → Bool

/-- Model of `downloadImage` (tomarkdown.go lines 245-273): fetch the external- or
file-typed image and replace its URL with the local visit path; any other
type falls through both branches and returns the image unchanged. -/
def downloadImage (env : MdEnv) (image : FileBlock) : Except Unit FileBlock :=
  match image.fileType with
  | .external =>
    (env.download image.externalURL).map fun newURL =>
      { image with externalURL := newURL }
  | .file =>
    (env.download image.fileURL).map fun newURL =>
      { image with fileURL := newURL }
  | .other => .ok image

/-- Model of `injectFrontMatterCover` (tomarkdown.go lines 374-392): download the
cover through the same pipeline and set the `cover` key; the function has no
error result, and on a download failure it simply returns, leaving the front
matter untouched. -/
def injectFrontMatterCover (env : MdEnv) (cover : Option FileBlock)
    (fm : FrontMatter) : FrontMatter :=
  match cover with
  | none => fm
  | some c =>
    match downloadImage env c with
    | .error _ => fm
    | .ok image =>
      match image.fileType with
      | .external => fmSet fm "cover".toList (.str image.externalURL)
      | .file => fmSet fm "cover".toList (.str image.fileURL)
      | .other => fm

/-- Model of `WithFrontMatter` (tomarkdown.go lines 66-72): cover first, then every
page property. -/
def WithFrontMatter (env : MdEnv) (cover : Option FileBlock)
    (props : List (Str × DBProperty)) : FrontMatter :=
  props.foldl (fun fm kv => injectFrontMatter fm kv.1 kv.2)
    (injectFrontMatterCover env cover [])

/-- Model of `notion.Block`, reduced to what the renderer reads: the type tag, the
image payload (for image blocks), the bookmark URL (for bookmark blocks),
`HasChildren`, and the type-specific child list that `getChildrenBlocks`
extracts (empty for the types it does not handle). -/
inductive Block where
  | mk (type : Str) (image : Option FileBlock) (bookmarkURL : Option Str)
      (hasChildren : Bool) (children : List Block)

/-- The block's type tag. -/
def Block.type : Block → Str
  | .mk t _ _ _ _ => t

/-- Model of `extendedSyntaxBlocks` (tomarkdown.go lines 26-29). -/
def extendedSyntaxBlocks : List Str := ["bookmark".toList, "callout".toList]

/-- Model of `shouldSkipRender` (tomarkdown.go lines 91-93). -/
def shouldSkipRender (enabled : Bool) (t : Str) : Bool :=
  !enabled && extendedSyntaxBlocks.contains t

/-- The trace of one template execution: the block's type, its depth, and the
`SameBlockIdx` exposed to its template. -/
structure Rendered where
  type : Str
  depth : Nat
  sameBlockIdx : Nat
deriving DecidableEq, Repr

/-- The loop of `GenContentBlocks` (tomarkdown.go lines 149-189) fused with
`GenBlock` (lines 194-242), carrying the loop locals `sameBlockIdx` and
`lastBlockType` and returning the trace of executed templates: skipped
extended-syntax blocks touch neither local; otherwise the counter is
incremented then reset to zero on a type change; image and bookmark
pre-processing errors are fatal; a missing template skips the block (and its
children) gracefully; children render at `depth+1` with fresh loop locals. -/
def GenContentBlocksGo (env : MdEnv) (enabled : Bool) :
    List Block → Nat → Nat → Str → Except Unit (List Rendered)
  | [], _, _, _ => .ok []
  | .mk t img bm hc cs :: rest, depth, sameBlockIdx0, lastBlockType =>
    if shouldSkipRender enabled t then
      GenContentBlocksGo env enabled rest depth sameBlockIdx0 lastBlockType
    else
      let idx1 := sameBlockIdx0 + 1
      let sameBlockIdx := if t ≠ lastBlockType then 0 else idx1
      let pre : Except Unit Unit :=
        if t == "image".toList then
          match img with
          | some fb => (downloadImage env fb).map fun _ => ()
          | none => .ok ()
        else if t == "bookmark".toList then
          match bm with
          | some url => (env.ogFetch url).map fun _ => ()
          | none => .ok ()
        else .ok ()
      match pre with
      | .error e => .error e
      | .ok _ =>
        if env.hasTemplate t then
          match (if hc then GenContentBlocksGo env enabled cs (depth + 1) 0 []
                 else .ok []) with
          | .error e => .error e
          | .ok childOut =>
            match GenContentBlocksGo env enabled rest depth sameBlockIdx t with
            | .error e => .error e
            | .ok tail => .ok (⟨t, depth, sameBlockIdx⟩ :: (childOut ++ tail))
        else
          GenContentBlocksGo env enabled rest depth sameBlockIdx t

/-- Model of `GenContentBlocks` entry point: zero-valued loop locals. -/
def GenContentBlocks (env : MdEnv) (enabled : Bool) (blocks : List Block)
    (depth : Nat) : Except Unit (List Rendered) :=
  GenContentBlocksGo env enabled blocks depth 0 []

/-- Model of `GenerateTo` (tomarkdown.go lines 97-120): front matter first, then the
block content (the optional external `ContentTemplate` post-processing pass
is outside the model). -/
def GenerateTo (env : MdEnv) (enabled : Bool) (fm : FrontMatter)
    (yamlMarshal : FrontMatter → Except Unit Str) (blocks : List Block) :
    Except Unit (Str × List Rendered) :=
  match GenFrontMatter fm yamlMarshal with
  | .error e => .error e
  | .ok fmOut =>
    match GenContentBlocks env enabled blocks 0 with
    | .error e => .error e
    | .ok content => .ok (fmOut, content)

/-- The per-page rendering pipeline of `generate` (generator.go lines
491-514): `tm.WithFrontMatter(page)` then `tm.GenerateTo(blocks, f)`. -/
def renderPage (env : MdEnv) (enabled : Bool)
    (yamlMarshal : FrontMatter → Except Unit Str) (page : Page)
    (blocks : List Block) : Except Unit (Str × List Rendered) :=
  GenerateTo env enabled
    (WithFrontMatter env page.cover (page.properties.getD [])) yamlMarshal blocks

/-- Evaluation of `Except.map` on an error. -/
@[simp] theorem except_map_error {ε α β : Type} (f : α → β) (e : ε) :
    Except.map f (Except.error e : Except ε α) = Except.error e := rfl

/-- Evaluation of `Except.map` on a success. -/
@[simp] theorem except_map_ok {ε α β : Type} (f : α → β) (a : α) :
    Except.map f (Except.ok a : Except ε α) = Except.ok (f a) := rfl

/-- Failing collaborators: every download and link-preview fetch errors. -/
def envFail : MdEnv := ⟨fun _ => .error (), fun _ => .error (), fun _ => true⟩

/-- Succeeding collaborators. -/
def envOk : MdEnv := ⟨fun _ => .ok [], fun _ => .ok ([], []), fun _ => true⟩

/-- A concrete external cover image. -/
def coverCex : FileBlock := ⟨.external, "http://h/c.png".toList, []⟩

/-- Counterexample to C4 as stated: with every download failing, a page
carrying a cover image still renders successfully — the cover download
failure is silently ignored (the `cover` key is simply not set) instead of
aborting the page's generation with an error. -/
theorem coverFailure_not_fatal_cex :
    renderPage envFail true (fun _ => .error ())
        ⟨"p2".toList, marchDate, marchDate, some [], some coverCex⟩ []
      = .ok ([], []) ∧
    injectFrontMatterCover envFail (some coverCex) [] = [] := by
  constructor
  · simp [renderPage, GenerateTo, GenContentBlocks, GenContentBlocksGo,
      WithFrontMatter, injectFrontMatterCover, downloadImage, envFail, coverCex,
      GenFrontMatter]
  · simp [injectFrontMatterCover, downloadImage, envFail, coverCex]

/-- C4 (amended): a download failure for a block image is fatal and aborts
the page's generation with an error, but a download failure for the page's
cover image (which goes through the same pipeline) is silently ignored: the
front matter is returned untouched and no error is reported. -/
theorem imageFatal_coverSilent (env : MdEnv) (enabled : Bool) (fb : FileBlock)
    (fm : FrontMatter) (h : downloadImage env fb = .error ()) :
    (∀ (rest : List Block) (depth idx : Nat) (last : Str),
      GenContentBlocksGo env enabled
          (.mk "image".toList (some fb) none false [] :: rest) depth idx last
        = .error ()) ∧
    injectFrontMatterCover env (some fb) fm = fm := by
  constructor
  · intro rest depth idx last
    simp [GenContentBlocksGo, shouldSkipRender, extendedSyntaxBlocks, h]
  · simp [injectFrontMatterCover, h]

/-- Witness for C4 (amended) at a concrete failing environment. -/
theorem imageFatal_coverSilent_witness :
    GenContentBlocksGo envFail true
        [.mk "image".toList (some ⟨.external, "u".toList, []⟩) none false []] 0 0 []
      = .error () ∧
    injectFrontMatterCover envFail (some ⟨.external, "u".toList, []⟩) [] = [] := by
  have h := imageFatal_coverSilent envFail true ⟨.external, "u".toList, []⟩ []
    (by simp [downloadImage, envFail])
  exact ⟨h.1 [] 0 0 [], h.2⟩

/-! ## The sibling counter (claim C7) -/

/-- A childless, payload-free block of the given type. -/
def simpleBlock (t : Str) : Block := .mk t none none false []

/-- Continuing a run of same-type simple blocks from counter value `c`
assigns the indices `c+1, c+2, …` in order. -/
theorem genGo_same_run (env : MdEnv) (enabled : Bool) (t : Str)
    (hskip : shouldSkipRender enabled t = false)
    (htpl : env.hasTemplate t = true) :
    ∀ (m c depth : Nat) (rest : List Block),
      GenContentBlocksGo env enabled
          (List.replicate m (simpleBlock t) ++ rest) depth c t
        = (GenContentBlocksGo env enabled rest depth (c + m) t).map
            (fun tail =>
              ((List.range' (c + 1) m).map
                (fun i => (⟨t, depth, i⟩ : Rendered))) ++ tail) := by
  intro m
  induction m with
  | zero =>
    intro c depth rest
    cases h : GenContentBlocksGo env enabled rest depth (c + 0) t <;>
      simp_all [Except.map]
  | succ m ih =>
    intro c depth rest
    rw [List.replicate_succ, List.cons_append]
    have hstep : GenContentBlocksGo env enabled
        (simpleBlock t :: (List.replicate m (simpleBlock t) ++ rest)) depth c t
        = match GenContentBlocksGo env enabled
            (List.replicate m (simpleBlock t) ++ rest) depth (c + 1) t with
          | .error e => .error e
          | .ok tail => .ok (⟨t, depth, c + 1⟩ :: tail) := by
      simp only [GenContentBlocksGo, simpleBlock, hskip, htpl]
      simp only [ne_eq, not_true_eq_false, if_false, Bool.false_eq_true]
      cases h1 : (t == "image".toList) <;> cases h2 : (t == "bookmark".toList) <;>
        simp [h1, h2]
    rw [hstep, ih (c + 1) depth rest]
    have hc : c + 1 + m = c + (m + 1) := by omega
    rw [hc]
    cases h : GenContentBlocksGo env enabled rest depth (c + (m + 1)) t <;>
      simp [Except.map, h, List.range'_succ]

/-- C7: a run of `N` consecutive same-type blocks whose type differs from the
previous rendered sibling's type is assigned `sameBlockIdx` values `0 … N-1`
in order (the differing type resets the counter to 0, whatever its previous
value), and rendering continues after the run with the counter at `N-1`. -/
theorem sameBlockIdx_run (env : MdEnv) (enabled : Bool) (t : Str)
    (hskip : shouldSkipRender enabled t = false)
    (htpl : env.hasTemplate t = true)
    (depth idx0 : Nat) (last : Str) (hlast : last ≠ t)
    (N : Nat) (hN : 1 ≤ N) (rest : List Block) :
    GenContentBlocksGo env enabled
        (List.replicate N (simpleBlock t) ++ rest) depth idx0 last
      = (GenContentBlocksGo env enabled rest depth (N - 1) t).map
          (fun tail =>
            ((List.range N).map (fun i => (⟨t, depth, i⟩ : Rendered))) ++ tail) := by
  cases N with
  | zero => omega
  | succ m =>
    rw [List.replicate_succ, List.cons_append]
    have hstep : GenContentBlocksGo env enabled
        (simpleBlock t :: (List.replicate m (simpleBlock t) ++ rest)) depth idx0 last
        = match GenContentBlocksGo env enabled
            (List.replicate m (simpleBlock t) ++ rest) depth 0 t with
          | .error e => .error e
          | .ok tail => .ok (⟨t, depth, 0⟩ :: tail) := by
      simp only [GenContentBlocksGo, simpleBlock, hskip, htpl]
      rw [if_pos (Ne.symm hlast)]
      cases h1 : (t == "image".toList) <;> cases h2 : (t == "bookmark".toList) <;>
        simp [h1, h2, htpl]
    rw [hstep, genGo_same_run env enabled t hskip htpl m 0 depth rest]
    have h0 : 0 + m = m + 1 - 1 := by omega
    rw [h0]
    cases h : GenContentBlocksGo env enabled rest depth (m + 1 - 1) t <;>
      simp [Except.map, h, List.range_eq_range', List.range'_succ]

/-- Witness for C7: two consecutive paragraphs after a differing previous
type get indices 0 and 1. -/
theorem sameBlockIdx_run_witness :
    GenContentBlocksGo envOk true
        (List.replicate 2 (simpleBlock "paragraph".toList) ++ []) 0 5 "code".toList
      = (GenContentBlocksGo envOk true [] 0 1 "paragraph".toList).map
          (fun tail =>
            ((List.range 2).map
              (fun i => (⟨"paragraph".toList, 0, i⟩ : Rendered))) ++ tail) :=
  sameBlockIdx_run envOk true "paragraph".toList (by decide) rfl 0 5
    "code".toList (by decide) 2 (by decide) []

/-! ## The sync orchestrator (generator.go Run, lines 249-489) -/

/-- Model of `generator.Config` (the fields the embedded orchestrator reads; the
Notion query configuration and the parallelism knobs live in the external
collaborators). -/
structure Config where
  markdown : Markdown
  incremental : Bool
  cacheFile : Str
deriving DecidableEq, Repr

/-- File-existence set: insert a path (`os.Create` on a new path). -/
def insertFs (p : Str) (fs : List Str) : List Str :=
  if fs.contains p then fs else fs ++ [p]

/-- File-existence set: remove a path (`os.Remove`). -/
def removeFs (p : Str) (fs : List Str) : List Str :=
  fs.filter (fun q => !(q == p))

/-- External collaborators of `Run`: the database query, the per-page block
tree fetch, the status updater, the renderer collaborators, and the
success/failure behaviour of `os.MkdirAll` on the post-save path and of
`os.Create` per path. -/
structure RunOracles where
  queryDatabase : Except Unit (List Page)
  queryBlockChildren : Str → Except Unit (List Block)
  changeStatus : Str → Bool
  env : MdEnv
  yamlMarshal : FrontMatter → Except Unit Str
  mkdirOk : Bool
  createOk : Str → Bool

/-- Model of `handlePage` (generator.go lines 375-396) together with the `generate`
it calls (lines 491-514): compute the page's output path; in incremental
mode, when a different previous output path is recorded, stat and delete the
stale file FIRST; then `os.Create` the new file (an existing path is
truncated in place) and render into it.  Returns the new relative output
path, and the updated file set. -/
def handlePage (config : Config) (o : RunOracles) (page : Page)
    (blocks : List Block) (previousOutputRelPath : Str) (fs : List Str) :
    Except Unit Str × List Str :=
  let title0 := getPageTitle page
  let title := if title0.isEmpty then page.id else title0
  let outputRelPath := generateArticleFilename title page.createdTime config.markdown
  let outputAbsPath := pjoin config.markdown.postSavePath outputRelPath
  let fs1 :=
    if config.incremental && !previousOutputRelPath.isEmpty &&
        !(previousOutputRelPath == outputRelPath) then
      let previousFile := pjoin config.markdown.postSavePath previousOutputRelPath
      if fs.contains previousFile then removeFs previousFile fs else fs
    else fs
  if o.createOk outputAbsPath then
    let fs2 := insertFs outputAbsPath fs1
    match renderPage o.env (!config.markdown.shortcodeSyntax.isEmpty)
        o.yamlMarshal page blocks with
    | .error _ => (.error (), fs2)
    | .ok _ => (.ok outputRelPath, fs2)
  else (.error (), fs1)

/-- Go map assignment `cache.Pages[id] = e`. -/
def cacheSet (ps : List (Str × cacheEntry)) (k : Str) (e : cacheEntry) :
    List (Str × cacheEntry) :=
  if ps.any (fun kv => kv.1 == k) then
    ps.map (fun kv => if kv.1 == k then (k, e) else kv)
  else ps ++ [(k, e)]

/-- The sequential per-page loop of `Run` (lines 450-477): fetch the block
tree, look up the previously recorded output path, run `handlePage`, record
the fresh cache entry, update the status counter; the first failure aborts,
leaving already-written files in place. -/
def runPagesLoop (config : Config) (o : RunOracles) :
    List Page → List Str → runCache → Nat →
    Except Unit Unit × (List Str × runCache × Nat)
  | [], fs, cache, changed => (.ok (), (fs, cache, changed))
  | page :: rest, fs, cache, changed =>
    match o.queryBlockChildren page.id with
    | .error _ => (.error (), (fs, cache, changed))
    | .ok blocks =>
      let previousOutputRelPath :=
        if config.incremental then
          match cacheLookup cache page.id with
          | some prev => prev.outputPath
          | none => []
        else []
      match handlePage config o page blocks previousOutputRelPath fs with
      | (.error _, fs') => (.error (), (fs', cache, changed))
      | (.ok outputRelPath, fs') =>
        let cache' : runCache := ⟨cacheSet cache.pages page.id
          ⟨cacheTimestamp page.lastEditedTime, outputRelPath⟩⟩
        let changed' := if o.changeStatus page.id then changed + 1 else changed
        runPagesLoop config o rest fs' cache' changed'

/-- The world `Run` acts on: existing directories, existing output files,
and the store holding the cache file. -/
structure World where
  dirs : List Str
  files : List Str
  cacheFS : FileStore

/-- Model of `Run` (generator.go lines 249-489), sequential mode (the parallel branch
performs the same per-page effects under a bounded semaphore).  Note the
`os.MkdirAll` of the post-save path is executed unconditionally — in dry-run
mode only its ERROR is ignored, the directory is still created — then query,
filter, cache load, cache check, the dry-run early exit, the page loop, and
the final cache save in incremental mode. -/
def Run (config0 : Config) (filterArgs : List Str) (since : Option GoTime)
    (dryRun : Bool) (o : RunOracles) (w : World) : Except Unit Unit × World :=
  let config := if config0.cacheFile.isEmpty then
      { config0 with cacheFile := ".notion-md-gen-cache.json".toList }
    else config0
  let w1 := if o.mkdirOk then
      { w with dirs := insertFs config.markdown.postSavePath w.dirs }
    else w
  if !o.mkdirOk && !dryRun then (.error (), w1)
  else
    match o.queryDatabase with
    | .error _ => (.error (), w1)
    | .ok results =>
      let pagesToProcess := filterPages filterArgs since results
      if pagesToProcess.isEmpty then (.ok (), w1)
      else
        match (if config.incremental then loadCache config.cacheFile w1.cacheFS
               else .ok defaultCache) with
        | .error _ => (.error (), w1)
        | .ok cache =>
          let checked := cacheCheckFilter config.incremental cache
            config.markdown w1.files pagesToProcess
          let pages2 := checked.1
          if dryRun then (.ok (), w1)
          else if pages2.isEmpty then (.ok (), w1)
          else
            match runPagesLoop config o pages2 w1.files cache 0 with
            | (.error _, (fs', _, _)) => (.error (), { w1 with files := fs' })
            | (.ok _, (fs', cache', _)) =>
              if config.incremental then
                (.ok (),
                  { dirs := w1.dirs, files := fs',
                    cacheFS := saveCache config.cacheFile cache' w1.cacheFS })
              else (.ok (), { w1 with files := fs' })

/-- Injectivity of `pjoin` in its relative component. -/
theorem pjoin_inj {base r1 r2 : Str} (h : pjoin base r1 = pjoin base r2) :
    r1 = r2 := by
  unfold pjoin at h
  have h2 := List.append_cancel_left h
  simpa using h2

/-- Membership after `insertFs`. -/
theorem mem_insertFs {a p : Str} {fs : List Str} :
    a ∈ insertFs p fs ↔ a ∈ fs ∨ a = p := by
  unfold insertFs
  by_cases h : fs.contains p
  · rw [if_pos h]
    constructor
    · exact Or.inl
    · rintro (ha | rfl)
      · exact ha
      · simpa using h
  · rw [if_neg h]
    simp

/-- A removed path is gone. -/
theorem not_mem_removeFs {p : Str} {fs : List Str} : p ∉ removeFs p fs := by
  simp [removeFs]

/-- A concrete incremental configuration over `plainMd`. -/
def cfgInc : Config := ⟨plainMd, true, "cache.json".toList⟩

/-- Oracles whose `os.Create` always fails (and whose remote calls succeed
vacuously). -/
def oracleNoCreate : RunOracles :=
  ⟨.ok [], fun _ => .ok [], fun _ => false, envOk, fun _ => .ok [], true,
   fun _ => false⟩

/-- Counterexample to C2 as stated: for `cexPage` (named `new`) with recorded
previous output `old.md`, generation fails (`os.Create` errors), yet the
stale file `posts/old.md` has already been deleted — it does NOT still
exist. -/
theorem handlePage_deletes_before_generate_cex :
    (handlePage cfgInc oracleNoCreate cexPage [] "old.md".toList
        ["posts/old.md".toList]).1 = .error () ∧
    (handlePage cfgInc oracleNoCreate cexPage [] "old.md".toList
        ["posts/old.md".toList]).2 = [] := by
  refine ⟨rfl, rfl⟩

/-- C2 (amended): in incremental mode, when the recorded previous output
path is non-empty and differs from the newly computed one, the stale file is
deleted BEFORE generation is attempted, so after `handlePage` the stale path
no longer exists regardless of whether generation succeeded or failed. -/
theorem handlePage_stale_removed (config : Config) (o : RunOracles)
    (page : Page) (blocks : List Block) (previousOutputRelPath : Str)
    (fs : List Str) (hinc : config.incremental = true)
    (hne : previousOutputRelPath ≠ [])
    (hdiff : previousOutputRelPath ≠ generateArticleFilename
      (if (getPageTitle page).isEmpty then page.id else getPageTitle page)
      page.createdTime config.markdown) :
    pjoin config.markdown.postSavePath previousOutputRelPath ∉
      (handlePage config o page blocks previousOutputRelPath fs).2 := by
  have houtne : pjoin config.markdown.postSavePath previousOutputRelPath ≠
      pjoin config.markdown.postSavePath
        (generateArticleFilename
          (if (getPageTitle page).isEmpty then page.id else getPageTitle page)
          page.createdTime config.markdown) :=
    fun hEq => hdiff (pjoin_inj hEq)
  have hne' : previousOutputRelPath.isEmpty = false := by
    cases previousOutputRelPath with
    | nil => exact absurd rfl hne
    | cons a as => rfl
  have hbeq : (previousOutputRelPath == generateArticleFilename
      (if (getPageTitle page).isEmpty then page.id else getPageTitle page)
      page.createdTime config.markdown) = false := by
    simpa using hdiff
  unfold handlePage
  simp only [hinc, hne', hbeq, Bool.not_false, Bool.true_and, Bool.and_self,
    if_true]
  have hfs1 : pjoin config.markdown.postSavePath previousOutputRelPath ∉
      (if fs.contains
          (pjoin config.markdown.postSavePath previousOutputRelPath) then
        removeFs (pjoin config.markdown.postSavePath previousOutputRelPath) fs
      else fs) := by
    by_cases hc : fs.contains
        (pjoin config.markdown.postSavePath previousOutputRelPath)
    · rw [if_pos hc]
      exact not_mem_removeFs
    · rw [if_neg hc]
      simpa using hc
  by_cases hcr : o.createOk (pjoin config.markdown.postSavePath
      (generateArticleFilename
        (if (getPageTitle page).isEmpty then page.id else getPageTitle page)
        page.createdTime config.markdown))
  · simp only [hcr, if_true]
    cases renderPage o.env (!config.markdown.shortcodeSyntax.isEmpty)
        o.yamlMarshal page blocks with
    | error e =>
      simp only
      intro hmem
      rcases mem_insertFs.mp hmem with hin | hEq
      · exact hfs1 hin
      · exact houtne hEq
    | ok v =>
      simp only
      intro hmem
      rcases mem_insertFs.mp hmem with hin | hEq
      · exact hfs1 hin
      · exact houtne hEq
  · simp only [hcr, if_false]
    exact hfs1

/-- Witness for C2 (amended): concrete successful generation, after which
the stale `posts/old.md` is gone. -/
theorem handlePage_stale_removed_witness :
    "posts/old.md".toList ∉
      (handlePage cfgInc
        ⟨.ok [], fun _ => .ok [], fun _ => false, envOk, fun _ => .ok [], true,
         fun _ => true⟩
        cexPage [] "old.md".toList ["posts/old.md".toList]).2 :=
  handlePage_stale_removed cfgInc
    ⟨.ok [], fun _ => .ok [], fun _ => false, envOk, fun _ => .ok [], true,
     fun _ => true⟩
    cexPage [] "old.md".toList ["posts/old.md".toList] rfl (by decide)
    (by decide)

/-- Oracles for a dry run: one page in the database, everything healthy. -/
def oracleDry : RunOracles :=
  ⟨.ok [cexPage], fun _ => .ok [], fun _ => false, envOk, fun _ => .ok [], true,
   fun _ => true⟩

/-- C1 (the code violates it): a dry run over an empty world still CREATES
the post-save directory — `os.MkdirAll` runs before the dry-run check and
only its error is ignored, contradicting the claim (and the source's own
comment) that dry-run leaves the filesystem unchanged; output files and the
cache file are indeed untouched. -/
theorem run_dryRun_creates_postdir :
    (Run cfgInc [] none true oracleDry ⟨[], [], []⟩).1 = .ok () ∧
    (Run cfgInc [] none true oracleDry ⟨[], [], []⟩).2.dirs = ["posts".toList] ∧
    (Run cfgInc [] none true oracleDry ⟨[], [], []⟩).2.files = [] ∧
    (Run cfgInc [] none true oracleDry ⟨[], [], []⟩).2.cacheFS = [] := by
  refine ⟨rfl, rfl, rfl, rfl⟩

end NotionMdGen
